import Mathlib

/-!
Shallow embedding of the Vamos evaluator (src/lang/eval.go) and of the
collaborating pieces of the `lang` package that eval.go uses but that are not
part of the provided source (Node variants, Env, the trampoline, the
`evalSpecial*` helpers).  Pieces absent from the source are modelled from the
specification and carry a doc comment starting with `Modelled from the spec:`.

Go's panic/recover discipline is embedded as an `Except Fault` layer:
`panicEvalError` becomes `Fault.evalError` (the classified `*EvalError` that
`Eval` recovers), while bare Go panics (a failed slice index, the bare
`panic` in `toSymbolName`) become `Fault.hostFault`, which `Eval` re-raises.
The trampoline (bounce/respond) flattens away in a functional embedding; in
its place every evaluator function consumes one unit of `fuel` per call, and
running out of fuel is the embedding-only `Fault.fuelExhausted`.  Mutable,
shared, chained environments are embedded as indices into a store of frames
threaded through a state monad.
-/

namespace Vamos

/-- The closed Node union of the lang package.  Modelled from the spec: the
Node variants themselves are declared outside eval.go; the spec (section 3)
fixes the set of variants and their payloads.  The numeric payload is taken
as `Int` (the spec leaves the numeric representation open; no claim depends
on numeric operations).  A Function value carries its diagnostic name,
parameter nodes, body, captured parent environment and macro flag; a
Primitive carries its name, inclusive arity range and an identifier into a
host-supplied table of primitive implementations. -/
inductive Node where
  | number (v : Int)
  | symbol (name : String)
  | str (s : String)
  | ch (c : Char)
  | list (nodes : List Node)
  | nilNode
  | function (fname : String) (params : List Node) (body : Node)
      (parentEnv : Nat) (macroFlag : Bool)
  | primitive (pname : String) (minArity maxArity : Nat) (fid : Nat)
deriving Repr

mutual

/-- Modelled from the spec: every Node has a textual rendering used only in
diagnostics (spec section 4.1); the exact text is not specified, so a plain
s-expression rendering is used. -/
def nodeString : Node → String
  | .number v => toString v
  | .symbol name => name
  | .str s => "\x22" ++ s ++ "\x22"
  | .ch c => "char:" ++ String.singleton c
  | .list ns => "(" ++ nodeListString ns ++ ")"
  | .nilNode => "nil"
  | .function fname _ _ _ _ => "<function " ++ fname ++ ">"
  | .primitive pname _ _ _ => "<primitive " ++ pname ++ ">"

/-- Rendering of a list of nodes, space separated (helper for `nodeString`). -/
def nodeListString : List Node → String
  | [] => ""
  | [n] => nodeString n
  | n :: rest => nodeString n ++ " " ++ nodeListString rest

end

/-- One environment frame: a diagnostic name, the bindings of the frame, and
an optional parent frame (an index into the store).  Modelled from the spec:
an Environment is a mutable name-to-Node mapping with an optional parent
reference forming the lexical chain (spec section 3). -/
structure Frame where
  fname : String
  bindings : List (String × Node)
  parent : Option Nat
deriving Repr

/-- The heap of environment frames.  Go environments are shared mutable
objects; the embedding replaces each `Env` reference by an index into this
store, which is threaded through evaluation in a state monad.  Frames are
only ever appended, so a frame's parent index is always smaller than its own
index and parent chains are acyclic. -/
structure Store where
  frames : List Frame
deriving Repr

/-- Faults that abort an in-flight evaluation.  `evalError` embeds the
classified `*EvalError` raised by `panicEvalError`; `hostFault` embeds any
other Go panic (failed slice indexing, the bare panic in `toSymbolName`);
`fuelExhausted` is an artifact of the fuelled embedding with no Go
counterpart. -/
inductive Fault where
  | evalError (msg : String)
  | hostFault (msg : String)
  | fuelExhausted
deriving Repr

/-- The evaluation monad: state-threaded frame store over aborting faults. -/
abbrev EvalM := StateT Store (Except Fault)

/-- Lookup in a frame's binding list (first match wins). -/
def assocGet : List (String × Node) → String → Option Node
  | [], _ => none
  | (k, v) :: rest, name => if k = name then some v else assocGet rest name

/-- Overwrite-or-append update of a frame's binding list. -/
def assocSet : List (String × Node) → String → Node → List (String × Node)
  | [], name, v => [(name, v)]
  | (k, w) :: rest, name, v =>
      if k = name then (k, v) :: rest else (k, w) :: assocSet rest name v

/-- Walk the parent chain looking for a name, with explicit chain fuel.  In
every store built by the evaluator a frame's parent has a strictly smaller
index, so a fuel of `frames.length + 1` always suffices to traverse the
whole chain. -/
def lookupChain (frames : List Frame) : Nat → Nat → String → Option Node
  | 0, _, _ => none
  | chainFuel + 1, i, name =>
      match frames[i]? with
      | none => none
      | some fr =>
          match assocGet fr.bindings name with
          | some v => some v
          | none =>
              match fr.parent with
              | some p => lookupChain frames chainFuel p name
              | none => none

/-- Walk the parent chain looking for the nearest frame that defines a name
and rewrite its binding there; `none` when the name is defined nowhere. -/
def updateChain (frames : List Frame) : Nat → Nat → String → Node → Option (List Frame)
  | 0, _, _, _ => none
  | chainFuel + 1, i, name, v =>
      match frames[i]? with
      | none => none
      | some fr =>
          match assocGet fr.bindings name with
          | some _ => some (frames.set i { fr with bindings := assocSet fr.bindings name v })
          | none =>
              match fr.parent with
              | some p => updateChain frames chainFuel p name v
              | none => none

/-- Modelled from the spec: `Env.Get` resolves a name by walking the chain
from the current environment outward and fails with a classified
unbound-symbol evaluation error when the name is absent in every ancestor
(spec sections 3 and 7). -/
def envGet (e : Nat) (name : String) : EvalM Node := do
  let st ← get
  match lookupChain st.frames (st.frames.length + 1) e name with
  | some v => pure v
  | none => throw (.evalError ("Unbound symbol: " ++ name))

/-- Modelled from the spec: `Env.Set` introduces or overwrites a binding in
the current frame only (spec section 3). -/
def envSet (e : Nat) (name : String) (v : Node) : EvalM Unit := do
  let st ← get
  match st.frames[e]? with
  | some fr => set (Store.mk (st.frames.set e { fr with bindings := assocSet fr.bindings name v }))
  | none => throw (.hostFault "invalid environment")

/-- Modelled from the spec: `Env.Update` mutates the nearest ancestor
(including the current frame) that already defines the name and fails with a
classified unbound-symbol evaluation error when the name is defined nowhere
in the chain (spec sections 3 and 7). -/
def envUpdate (e : Nat) (name : String) (v : Node) : EvalM Unit := do
  let st ← get
  match updateChain st.frames (st.frames.length + 1) e name v with
  | some fs => set (Store.mk fs)
  | none => throw (.evalError ("Unbound symbol: " ++ name))

/-- Modelled from the spec: `NewMapEnv` allocates one fresh, empty child
environment with the given diagnostic name and parent (spec section 3); the
embedding appends the frame to the store and returns its index. -/
def newMapEnv (fname : String) (parent : Nat) : EvalM Nat := do
  let st ← get
  set (Store.mk (st.frames ++ [Frame.mk fname [] (some parent)]))
  pure st.frames.length

/-- Slice indexing as Go performs it: out of range is a bare runtime panic,
embedded as a host fault that `Eval` does not convert. -/
def goIndex (xs : List Node) (i : Nat) : EvalM Node :=
  match xs[i]? with
  | some v => pure v
  | none => throw (.hostFault "index out of range")

/-- Embeds `toSymbolName` (eval.go lines 286-293).  On a non-symbol node the
Go code raises a bare `panic` with a string, not a `panicEvalError`, so the
embedding throws a host fault, which `Eval` re-raises instead of converting. -/
def toSymbolName (n : Node) : EvalM String :=
  match n with
  | .symbol name => pure name
  | _ => throw (.hostFault ("Not a symbol: " ++ nodeString n))

/-- Modelled from the spec: `toListValue` requires a List result and raises
the classified NotAList evaluation error otherwise (spec section 7). -/
def toListValue (n : Node) : EvalM (List Node) :=
  match n with
  | .list ns => pure ns
  | _ => throw (.evalError ("Not a list: " ++ nodeString n))

/-- Modelled from the spec: the truthiness coercion used by `if` and `cond`;
the spec (section 9) leaves the policy open beyond a distinguished
false/nil sentinel being falsy and everything else truthy. -/
def toBooleanValue (n : Node) : Bool :=
  match n with
  | .nilNode => false
  | .symbol "false" => false
  | _ => true

/-- Message of a special-form arity failure, mirroring the format string of
`ensureSpecialArgsCountEquals` (eval.go lines 244-252), without the quote
characters around the name. -/
def specialArityMsg (formName : String) (paramCount actual : Nat) : String :=
  "Special form " ++ formName ++ " expects " ++ toString paramCount ++
    " argument(s), but was given " ++ toString actual

/-- Embeds `ensureSpecialArgsCountEquals` (eval.go lines 244-252): a
classified evaluation error when the count differs. -/
def ensureSpecialArgsCountEquals (formName : String) (args : List Node) (paramCount : Nat) :
    EvalM Unit :=
  if args.length = paramCount then pure ()
  else throw (.evalError (specialArityMsg formName paramCount args.length))

/-- Message of a user-function arity failure, mirroring the format string of
`ensureArgsMatchParameters` (eval.go lines 265-273). -/
def functionArityMsg (procedureName : String) (paramCount actual : Nat) : String :=
  "Function " ++ procedureName ++ " expects " ++ toString paramCount ++
    " argument(s), but was given " ++ toString actual

/-- Embeds `ensureArgsMatchParameters` (eval.go lines 265-273): a classified
evaluation error when the argument count differs from the parameter count. -/
def ensureArgsMatchParameters (procedureName : String) (argsLen paramsLen : Nat) :
    EvalM Unit :=
  if argsLen = paramsLen then pure ()
  else throw (.evalError (functionArityMsg procedureName paramsLen argsLen))

/-- Message of a primitive arity failure, mirroring the format string of
`ensurePrimitiveArgsCountInRange` (eval.go lines 275-284). -/
def primitiveArityMsg (name : String) (paramCountMin paramCountMax actual : Nat) : String :=
  "Primitive " ++ name ++ " expects between " ++ toString paramCountMin ++
    " and " ++ toString paramCountMax ++ " arguments, but was given " ++ toString actual

/-- Embeds `ensurePrimitiveArgsCountInRange` (eval.go lines 275-284): a
classified evaluation error when the count is outside the inclusive range. -/
def ensurePrimitiveArgsCountInRange (name : String) (args : List Node)
    (paramCountMin paramCountMax : Nat) : EvalM Unit :=
  if paramCountMin ≤ args.length ∧ args.length ≤ paramCountMax then pure ()
  else throw (.evalError (primitiveArityMsg name paramCountMin paramCountMax args.length))

/-- The host-supplied primitive table: from a primitive identifier, the
current environment, the call-site head node and the evaluated arguments to
a result node.  Primitive bodies are outside the core contract; only the
calling convention matters here. -/
abbrev Prims := Nat → Nat → Node → List Node → Node

/-- Embeds the parameter-mapping loop of `evalFunctionApplication` (eval.go
lines 205-220), including its exact quirks: ordinary parameters are bound
from `args[iparam]` (a bare index, hence a host fault when out of range);
after the `&rest` marker every further parameter name is bound to one new
List node built from `args[iarg:]`, and the original argument list is never
mutated. -/
def bindParamsLoop (lex : Nat) (args : List Node) :
    Nat → Nat → Bool → List Node → EvalM Unit
  | _, _, _, [] => pure ()
  | iparam, iarg, isMappingRestArgs, param :: rest => do
      let paramName ← toSymbolName param
      if isMappingRestArgs then do
        let restArgs := args.drop iarg
        envSet lex paramName (Node.list restArgs)
        bindParamsLoop lex args (iparam + 1) iarg true rest
      else if paramName = "&rest" then
        bindParamsLoop lex args (iparam + 1) iarg true rest
      else do
        let v ← goIndex args iparam
        envSet lex paramName v
        bindParamsLoop lex args (iparam + 1) (iarg + 1) false rest

/-- Pure account of what the binding loop does to a frame's binding list
when it maps plain (non-variadic) parameters: each name in turn is bound to
the matching value. -/
def bindAccum (bs : List (String × Node)) : List String → List Node → List (String × Node)
  | [], _ => bs
  | _ :: _, [] => bs
  | n :: ns, v :: vs => bindAccum (assocSet bs n v) ns vs

/-- Embeds the parameter-validation loop of `evalFunctionApplication`
(eval.go lines 183-189): every parameter node is forced through
`toSymbolName` (so a non-symbol parameter is a bare-panic host fault) and
the function is variadic when any parameter is the `&rest` marker. -/
def detectRestMarker (params : List Node) : EvalM Bool :=
  params.foldlM
    (fun acc param => do
      let paramName ← toSymbolName param
      pure (acc || paramName = "&rest"))
    false

/-- Modelled from the spec: the fn/macro special forms respond with a new
Function value whose parameters are the parameter-list's child nodes, whose
body is as given and whose captured parent environment is the current
environment (spec section 4.5).  The diagnostic name of an anonymous
function is left empty. -/
def evalSpecialFnOrMacroForm (e : Nat) (args : List Node) (asMacro : Bool) : EvalM Node :=
  match args with
  | [paramList, body] => do
      let ps ← toListValue paramList
      pure (Node.function "" ps body e asMacro)
  | _ =>
      throw (.evalError (specialArityMsg (if asMacro then "macro" else "fn") 2 args.length))

/-- The reserved special-form names checked by the head switch of `evalList`
(eval.go lines 94-157). -/
def reservedNames : List String :=
  ["apply", "def", "eval", "update!", "if", "cond", "fn", "macro",
   "macroexpand1", "quote", "let", "begin"]

section Evaluator

variable (P : Prims)

/-- Requests of the evaluator's single fuelled recursion.  The mutually
recursive evaluator functions of eval.go (and the spec-modelled special-form
helpers) are embedded as the arms of one function that recurses structurally
on a fuel counter, so that concrete evaluations reduce definitionally; each
arm is re-exposed under its Go function's name right below `evalD`. -/
inductive Req where
  | node (e : Nat) (n : Node)
  | list (e : Nat) (elements : List Node) (shouldEvalMacros : Bool)
  | condClauses (e : Nat) (origStr : String) (clauses : List Node)
  | headApplication (e : Nat) (head : Node) (args : List Node) (shouldEvalMacros : Bool)
  | fnApplication (dynamicEnv : Nat) (fname : String) (params : List Node) (body : Node)
      (parentEnv : Nat) (macroFlag : Bool) (unevaledArgs : List Node) (shouldEvalMacros : Bool)
  | eachNode (e : Nat) (ns : List Node)
  | specialDef (e : Nat) (args : List Node)
  | specialEval (e : Nat) (args : List Node)
  | expand1 (e : Nat) (args : List Node)
  | specialLet (e : Nat) (args : List Node)
  | letBindings (newEnv : Nat) (items : List Node)
  | specialBegin (e : Nat) (args : List Node)

/-- Result type of each evaluator request: a list of values for argument
evaluation, unit for the let-binding loop, one Node for everything else. -/
def ReqTy : Req → Type
  | .eachNode _ _ => List Node
  | .letBindings _ _ => Unit
  | _ => Node

/-- The evaluator.  Every recursive step consumes one unit of fuel,
replacing the Go trampoline; arms that perform no evaluator recursion (the
base cases listed first) do not consume fuel.  The arms embed, in order:
`evalNode` (eval.go 45-65), `evalList` (67-178) with its inline special
forms and its callable-head tail, the `cond` clause loop (128-140),
`evalFunctionApplication` (180-242), `evalEachNode` (34-43), and the
spec-modelled helpers for `def`, `eval`, `macroexpand1`, `let` and `begin`.
The inline special forms (`apply`, `update!`, `if`, `cond`, `quote`) index
their argument slice without any count validation, exactly as the Go code
does, so a wrong count surfaces as a host fault, not as a classified arity
error. -/
def evalD : (fuel : Nat) → (r : Req) → EvalM (ReqTy r)
  | _, .eachNode _ [] => pure []
  | _, .condClauses _ origStr [] =>
      throw (.evalError ("No matching cond clause: " ++ origStr))
  | _, .letBindings _ [] => pure ()
  | _, .specialBegin _ [] => throw (.evalError (specialArityMsg "begin" 1 0))
  | 0, _ => throw .fuelExhausted
  | fuel + 1, .node e n =>
      match n with
      | .number v => pure (.number v)
      | .symbol name => envGet e name
      | .str s => pure (.str s)
      | .ch c => pure (.ch c)
      | .list ns => evalD fuel (.list e ns true)
      | .nilNode => pure .nilNode
      | other => throw (.evalError ("Unknown form to evaluate: " ++ nodeString other))
  | fuel + 1, .list e elements shouldEvalMacros =>
      match elements with
      | [] =>
          throw (.evalError ("Empty list cannot be evaluated: " ++ nodeString (.list elements)))
      | head :: args =>
          match head with
          | .symbol name =>
              match name with
              | "apply" => do
                  let f ← goIndex args 0
                  let arg1 ← goIndex args 1
                  let ln ← evalD fuel (.node e arg1)
                  let l ← toListValue ln
                  evalD fuel (.list e (f :: l) true)
              | "def" => evalD fuel (.specialDef e args)
              | "eval" => evalD fuel (.specialEval e args)
              | "update!" => do
                  let a0 ← goIndex args 0
                  let nm ← toSymbolName a0
                  let a1 ← goIndex args 1
                  let v ← evalD fuel (.node e a1)
                  envUpdate e nm v
                  pure .nilNode
              | "if" => do
                  let a0 ← goIndex args 0
                  let pv ← evalD fuel (.node e a0)
                  if toBooleanValue pv then do
                    let a1 ← goIndex args 1
                    evalD fuel (.node e a1)
                  else do
                    let a2 ← goIndex args 2
                    evalD fuel (.node e a2)
              | "cond" =>
                  evalD fuel (.condClauses e (nodeString (.list (head :: args))) args)
              | "fn" => evalSpecialFnOrMacroForm e args false
              | "macro" => evalSpecialFnOrMacroForm e args true
              | "macroexpand1" => evalD fuel (.expand1 e args)
              | "quote" => goIndex args 0
              | "let" => evalD fuel (.specialLet e args)
              | "begin" => evalD fuel (.specialBegin e args)
              | _ => evalD fuel (.headApplication e head args shouldEvalMacros)
          | _ => evalD fuel (.headApplication e head args shouldEvalMacros)
  | fuel + 1, .condClauses e origStr (p :: rest) => do
      let pv ← evalD fuel (.node e p)
      if toBooleanValue pv then
        match rest with
        | r :: _ => evalD fuel (.node e r)
        | [] => throw (.hostFault "index out of range")
      else
        match rest with
        | _ :: rest2 => evalD fuel (.condClauses e origStr rest2)
        | [] => throw (.evalError ("No matching cond clause: " ++ origStr))
  | fuel + 1, .headApplication e head args shouldEvalMacros => do
      let headNode ← evalD fuel (.node e head)
      match headNode with
      | .primitive pname minArity maxArity fid => do
          ensurePrimitiveArgsCountInRange pname args minArity maxArity
          let argv ← evalD fuel (.eachNode e args)
          pure (P fid e head argv)
      | .function fname params body parentEnv macroFlag =>
          evalD fuel (.fnApplication e fname params body parentEnv macroFlag args
            shouldEvalMacros)
      | other =>
          throw (.evalError ("First item in list not a function: " ++ nodeString other))
  | fuel + 1, .fnApplication dynamicEnv fname params body parentEnv macroFlag unevaledArgs
      shouldEvalMacros => do
      let isVariableNumberOfParams ← detectRestMarker params
      if isVariableNumberOfParams then pure ()
      else ensureArgsMatchParameters fname unevaledArgs.length params.length
      let lexicalEnv ← newMapEnv fname parentEnv
      let args ← if macroFlag then pure unevaledArgs
                 else evalD fuel (.eachNode dynamicEnv unevaledArgs)
      bindParamsLoop lexicalEnv args 0 0 false params
      if macroFlag then do
        let expandedMacro ← evalD fuel (.node lexicalEnv body)
        if shouldEvalMacros then evalD fuel (.node dynamicEnv expandedMacro)
        else pure expandedMacro
      else
        evalD fuel (.node lexicalEnv body)
  | fuel + 1, .eachNode e (n :: ns) => do
      let v ← evalD fuel (.node e n)
      let vs ← evalD fuel (.eachNode e ns)
      pure (v :: vs)
  | fuel + 1, .specialDef e args => do
      ensureSpecialArgsCountEquals "def" args 2
      let a0 ← goIndex args 0
      let nm ← toSymbolName a0
      let a1 ← goIndex args 1
      let v ← evalD fuel (.node e a1)
      envSet e nm v
      pure .nilNode
  | fuel + 1, .specialEval e args => do
      ensureSpecialArgsCountEquals "eval" args 1
      let a0 ← goIndex args 0
      let v ← evalD fuel (.node e a0)
      evalD fuel (.node e v)
  | fuel + 1, .expand1 e args => do
      ensureSpecialArgsCountEquals "macroexpand1" args 1
      let a0 ← goIndex args 0
      let form ← evalD fuel (.node e a0)
      let ns ← toListValue form
      evalD fuel (.list e ns false)
  | fuel + 1, .specialLet e args => do
      ensureSpecialArgsCountEquals "let" args 2
      let a0 ← goIndex args 0
      let bs ← toListValue a0
      let newEnv ← newMapEnv "let" e
      evalD fuel (.letBindings newEnv bs)
      let body ← goIndex args 1
      evalD fuel (.node newEnv body)
  | fuel + 1, .letBindings newEnv (nameNode :: rest) => do
      let nm ← toSymbolName nameNode
      match rest with
      | initExpr :: rest2 => do
          let v ← evalD fuel (.node newEnv initExpr)
          envSet newEnv nm v
          evalD fuel (.letBindings newEnv rest2)
      | [] => throw (.evalError "Odd number of items in let binding list")
  | fuel + 1, .specialBegin e [last] => evalD fuel (.node e last)
  | fuel + 1, .specialBegin e (x :: rest) => do
      let _ ← evalD fuel (.node e x)
      evalD fuel (.specialBegin e rest)

/-- Embeds `evalNode` (eval.go lines 45-65): self-evaluating nodes respond
with themselves, symbols resolve through the environment, a list bounces
into list evaluation, and any other node kind is the classified
unknown-form evaluation error. -/
def evalNode (fuel e : Nat) (n : Node) : EvalM Node :=
  evalD P fuel (.node e n)

/-- Embeds `evalEachNode` (eval.go lines 34-43): evaluate each node to
completion, left to right. -/
def evalEachNode (fuel e : Nat) (ns : List Node) : EvalM (List Node) :=
  evalD P fuel (.eachNode e ns)

/-- Embeds `evalList` (eval.go lines 67-178): the empty list is a classified
evaluation error; a symbol head is first matched against the fixed reserved
special-form names (falling through for any other name), and a non-symbol
head or an unreserved symbol head goes to callable-head application. -/
def evalList (fuel e : Nat) (elements : List Node) (shouldEvalMacros : Bool) : EvalM Node :=
  evalD P fuel (.list e elements shouldEvalMacros)

/-- Embeds the loop of the `cond` special form (eval.go lines 128-140):
predicates are evaluated left to right two slots at a time; the first truthy
predicate evaluates its result slot (whose absence, on an odd-length clause
list, is a bare index panic); exhaustion is the classified
no-matching-clause evaluation error. -/
def evalCondClauses (fuel e : Nat) (origStr : String) (clauses : List Node) : EvalM Node :=
  evalD P fuel (.condClauses e origStr clauses)

/-- Embeds the tail of `evalList` (eval.go lines 160-177): the head is
evaluated to completion; a Primitive validates the argument count against
its declared inclusive range before any argument is evaluated, then receives
the evaluated arguments; a Function goes to function application; any other
head value is the classified not-a-function evaluation error. -/
def evalListHeadApplication (fuel e : Nat) (head : Node) (args : List Node)
    (shouldEvalMacros : Bool) : EvalM Node :=
  evalD P fuel (.headApplication e head args shouldEvalMacros)

/-- Embeds `evalFunctionApplication` (eval.go lines 180-242): parameters are
validated (a variadic marker anywhere suppresses the exact-arity check
entirely); one fresh child environment is allocated with the function's
captured parent — not the caller's environment; arguments are passed
unevaluated to a macro and otherwise evaluated left to right in the caller's
dynamic environment; parameters are mapped by the binding loop; a macro body
is evaluated in the new environment to produce the expansion, which is then
either evaluated in the caller's dynamic environment or returned unevaluated
according to `shouldEvalMacros`; an ordinary function's body is evaluated in
the new environment. -/
def evalFunctionApplication (fuel dynamicEnv : Nat) (fname : String) (params : List Node)
    (body : Node) (parentEnv : Nat) (macroFlag : Bool) (unevaledArgs : List Node)
    (shouldEvalMacros : Bool) : EvalM Node :=
  evalD P fuel (.fnApplication dynamicEnv fname params body parentEnv macroFlag unevaledArgs
    shouldEvalMacros)

/-- Modelled from the spec: the `def` special form takes a name and an
expression, evaluates the expression to completion in the current
environment, binds the name in the current frame and responds with Nil
(spec section 4.5); the name position goes through `toSymbolName` like the
one of `update!`. -/
def evalSpecialDef (fuel e : Nat) (args : List Node) : EvalM Node :=
  evalD P fuel (.specialDef e args)

/-- Modelled from the spec: the `eval` special form takes one argument,
evaluates it to completion to obtain a node and evaluates that node again to
completion (spec section 4.5). -/
def evalSpecialEval (fuel e : Nat) (args : List Node) : EvalM Node :=
  evalD P fuel (.specialEval e args)

/-- Modelled from the spec: `macroexpand1` takes one argument, evaluates it
to completion to obtain a macro-call form and performs exactly one expansion
step by evaluating that form as a list with macro-expansion-only mode, so
the expansion is returned unevaluated (spec section 4.5). -/
def evalSpecialExpand1 (fuel e : Nat) (args : List Node) : EvalM Node :=
  evalD P fuel (.expand1 e args)

/-- Modelled from the spec: `let` takes a binding list and a body, creates
one new child environment of the current one, evaluates each binding pair
left to right with each initializer evaluated in the new environment, and
evaluates the body in the new environment (spec section 4.5). -/
def evalSpecialLet (fuel e : Nat) (args : List Node) : EvalM Node :=
  evalD P fuel (.specialLet e args)

/-- Modelled from the spec: `begin` takes at least one argument, evaluates
all but the last expression to completion discarding the results, and
evaluates the last expression as the result (spec section 4.5). -/
def evalSpecialBegin (fuel e : Nat) (args : List Node) : EvalM Node :=
  evalD P fuel (.specialBegin e args)

/-- Embeds `Eval` (eval.go lines 11-32), the public entry point: run the
evaluation; a recovered classified evaluation error is converted into a
returned error value with a nil result; any other fault is re-raised
unchanged.  The writer argument of the Go function only feeds primitive
output and is outside the core contract. -/
def Eval (fuel e : Nat) (n : Node) (st : Store) :
    Except Fault (Option Node × Option String) :=
  match (evalNode P fuel e n).run st with
  | .ok (r, _) => .ok (some r, none)
  | .error (.evalError msg) => .ok (none, some msg)
  | .error f => .error f

end Evaluator

/-- Trivial primitive table used to instantiate concrete evaluations. -/
def noPrims : Prims := fun _ _ _ _ => Node.nilNode

/-! ### Generic facts about running the evaluation monad -/

theorem run_pure {α} (a : α) (st : Store) : (pure a : EvalM α).run st = .ok (a, st) := rfl

theorem run_throw {α} (f : Fault) (st : Store) : (throw f : EvalM α).run st = .error f := rfl

theorem run_bind {α β} (x : EvalM α) (f : α → EvalM β) (st : Store) :
    (x >>= f).run st = (x.run st).bind (fun p => (f p.1).run p.2) := by
  show (x.run st).bind _ = _
  cases x.run st with
  | ok p => cases p; rfl
  | error fl => rfl

theorem run_bind_ok {α β} {x : EvalM α} {f : α → EvalM β} {st : Store} {a : α} {st1 : Store}
    (h : x.run st = .ok (a, st1)) : (x >>= f).run st = (f a).run st1 := by
  rw [run_bind, h]; rfl

theorem run_bind_err {α β} {x : EvalM α} {f : α → EvalM β} {st : Store} {fl : Fault}
    (h : x.run st = .error fl) : (x >>= f).run st = .error fl := by
  rw [run_bind, h]; rfl

theorem run_get (st : Store) : (get : EvalM Store).run st = .ok (st, st) := rfl

theorem run_set (s st : Store) : (set s : EvalM Unit).run st = .ok ((), s) := rfl

theorem toSymbolName_symbol (name : String) :
    toSymbolName (.symbol name) = (pure name : EvalM String) := rfl

theorem run_newMapEnv (fname : String) (parent : Nat) (st : Store) :
    (newMapEnv fname parent).run st
      = .ok (st.frames.length, Store.mk (st.frames ++ [Frame.mk fname [] (some parent)])) := rfl

theorem set_self_of_getElem? {l : List Frame} {i : Nat} {fr : Frame}
    (h : l[i]? = some fr) : l.set i fr = l := by
  induction l generalizing i with
  | nil => simp at h
  | cons x xs ih =>
      cases i with
      | zero => simp at h; simp [List.set, h]
      | succ j => simp at h; simp [List.set, ih h]

theorem set_append_length (l : List Frame) (a b : Frame) :
    (l ++ [a]).set l.length b = l ++ [b] := by
  induction l with
  | nil => rfl
  | cons x xs ih => simp [List.set, ih]

theorem run_envSet {lex : Nat} {st : Store} {fr : Frame} (n : String) (v : Node)
    (hfr : st.frames[lex]? = some fr) :
    (envSet lex n v).run st
      = .ok ((), Store.mk (st.frames.set lex
          { fr with bindings := assocSet fr.bindings n v })) := by
  show ((get : EvalM Store) >>= fun st2 =>
      (match st2.frames[lex]? with
      | some fr2 => set (Store.mk (st2.frames.set lex
          { fr2 with bindings := assocSet fr2.bindings n v }))
      | none => throw (.hostFault "invalid environment"))).run st = _
  rw [run_bind_ok (run_get st), hfr]
  rfl

/-- A parameter list made of plain symbols with no variadic marker makes the
validation loop of `evalFunctionApplication` report a fixed-arity function. -/
theorem detectRestMarker_no_rest (names : List String) (h : "&rest" ∉ names) :
    detectRestMarker (names.map Node.symbol) = (pure false : EvalM Bool) := by
  suffices haux : ∀ acc : Bool,
      (List.foldlM (fun acc param => do
        let paramName ← toSymbolName param
        pure (acc || paramName = "&rest")) acc (names.map Node.symbol) : EvalM Bool)
      = pure acc from haux false
  induction names with
  | nil => intro acc; simp
  | cons n ns ih =>
      intro acc
      simp only [List.mem_cons, not_or] at h
      have hn : n ≠ "&rest" := fun hc => h.1 hc.symm
      simp only [List.map_cons, List.foldlM_cons, toSymbolName_symbol, pure_bind]
      rw [ih h.2]
      simp [hn]

/-- The parameter-mapping loop on a list of plain symbol parameters binds
each name in order to the argument at its parameter position, accumulating
into the target frame's bindings. -/
theorem bindParamsLoop_symbols (lex : Nat) (args : List Node) :
    ∀ (names : List String) (iparam iarg : Nat) (st : Store) (fr : Frame),
      st.frames[lex]? = some fr → "&rest" ∉ names →
      iparam + names.length ≤ args.length →
      (bindParamsLoop lex args iparam iarg false (names.map Node.symbol)).run st
        = .ok ((), Store.mk (st.frames.set lex
            { fr with bindings := bindAccum fr.bindings names (args.drop iparam) })) := by
  intro names
  induction names with
  | nil =>
      intro iparam iarg st fr hfr _ _
      simp only [List.map_nil, bindParamsLoop, bindAccum, run_pure]
      rw [set_self_of_getElem? hfr]
  | cons n ns ih =>
      intro iparam iarg st fr hfr hrest hlen
      have hn : n ≠ "&rest" := by
        intro hcontra; exact hrest (hcontra ▸ List.mem_cons_self n ns)
      have hrest2 : "&rest" ∉ ns := fun hm => hrest (List.mem_cons_of_mem n hm)
      have hlt : iparam < args.length := by
        simp only [List.length_cons] at hlen; omega
      have hlex : lex < st.frames.length := by
        rcases List.getElem?_eq_some.mp hfr with ⟨hl, _⟩; exact hl
      have hstep : bindParamsLoop lex args iparam iarg false
          (Node.symbol n :: ns.map Node.symbol)
          = (goIndex args iparam >>= fun v => envSet lex n v >>= fun _ =>
             bindParamsLoop lex args (iparam + 1) (iarg + 1) false (ns.map Node.symbol)) := by
        simp [bindParamsLoop, toSymbolName_symbol, pure_bind, hn]
      have hgo : goIndex args iparam = (pure args[iparam] : EvalM Node) := by
        simp [goIndex, List.getElem?_eq_getElem hlt]
      have hfr2 : (Store.mk (st.frames.set lex
          { fr with bindings := assocSet fr.bindings n args[iparam] })).frames[lex]?
          = some { fr with bindings := assocSet fr.bindings n args[iparam] } := by
        simp [List.getElem?_set_self (by simpa using hlex)]
      rw [List.map_cons, hstep, hgo, pure_bind,
        run_bind_ok (run_envSet n args[iparam] hfr)]
      rw [ih (iparam + 1) (iarg + 1) _ _ hfr2 hrest2
        (by simp only [List.length_cons] at hlen ⊢; omega)]
      rw [List.drop_eq_getElem_cons hlt]
      simp [bindAccum, List.set_set]

/-- C1: for every primitive table, fuel bound, environment, node and store,
the public entry point `Eval` is the single conversion point for evaluation
failures — a successful inner evaluation is returned as a result with no
error; a classified evaluation error raised anywhere inside evaluation is
caught at `Eval` and returned as an error value with a nil result; any other
internal fault propagates unchanged instead of being reclassified. -/
theorem eval_is_error_boundary (P : Prims) (fuel e : Nat) (n : Node) (st : Store) :
    (∀ r st1, (evalNode P fuel e n).run st = .ok (r, st1) →
        Eval P fuel e n st = .ok (some r, none))
  ∧ (∀ msg, (evalNode P fuel e n).run st = .error (.evalError msg) →
        Eval P fuel e n st = .ok (none, some msg))
  ∧ (∀ fl, (evalNode P fuel e n).run st = .error fl →
        (∀ msg, fl ≠ Fault.evalError msg) → Eval P fuel e n st = .error fl) := by
  refine ⟨?_, ?_, ?_⟩
  · intro r st1 h; unfold Eval; rw [h]
  · intro msg h; unfold Eval; rw [h]
  · intro fl h hne
    unfold Eval
    rw [h]
    cases fl with
    | evalError m => exact absurd rfl (hne m)
    | hostFault m => rfl
    | fuelExhausted => rfl

/-- C1 witness: an unbound symbol raises a classified evaluation error deep
inside evaluation and `Eval` returns it as an error value with a nil
result. -/
theorem eval_is_error_boundary_witness :
    Eval noPrims 1 0 (.symbol "nope") (Store.mk [Frame.mk "global" [] none])
      = .ok (none, some "Unbound symbol: nope") :=
  (eval_is_error_boundary noPrims 1 0 (.symbol "nope")
      (Store.mk [Frame.mk "global" [] none])).2.1 "Unbound symbol: nope" (by rfl)

/-- C5 (code defect): applying `(fn (a &rest b) a)`, bound to `g`, to zero
arguments does not produce a classified arity error returned by `Eval` —
because a `&rest` marker suppresses the arity validation entirely, the
binding loop indexes the empty argument slice out of range, a bare host
panic that `Eval` re-raises unchanged, so the entry point crashes instead of
returning an arity error value. -/
theorem variadic_under_application_is_host_fault :
    Eval noPrims 20 0 (.list [.symbol "g"])
      (Store.mk [Frame.mk "global"
        [("g", .function "g" [.symbol "a", .symbol "&rest", .symbol "b"]
            (.symbol "a") 0 false)] none])
      = .error (.hostFault "index out of range") := rfl

/-- C6 (code defect): a position requiring a symbol that receives a
non-symbol does not abort with a classified error that `Eval` converts —
`toSymbolName` raises a bare panic, which `Eval` re-raises unchanged.  Both
cited shapes crash: `(update! 42 7)` (non-symbol name argument of `update!`)
and a call to a function whose parameter list contains the non-symbol `1`. -/
theorem non_symbol_position_is_host_fault :
    (Eval noPrims 20 0 (.list [.symbol "update!", .number 42, .number 7])
        (Store.mk [Frame.mk "global" [] none])
      = .error (.hostFault "Not a symbol: 42"))
  ∧ (Eval noPrims 20 0 (.list [.symbol "h", .number 5])
        (Store.mk [Frame.mk "global"
          [("h", .function "h" [.number 1] (.nilNode) 0 false)] none])
      = .error (.hostFault "Not a symbol: 1")) :=
  ⟨rfl, rfl⟩

/-- C7 (code defect): the special forms handled inline by `evalList` perform
no argument-count validation at all, so a wrong count does not produce a
classified arity error carrying the callee name and counts: `(quote)` and
`(if)` both index the empty argument slice out of range, a bare host panic
that `Eval` re-raises unchanged. -/
theorem special_form_arity_is_unchecked :
    (Eval noPrims 20 0 (.list [.symbol "quote"]) (Store.mk [Frame.mk "global" [] none])
      = .error (.hostFault "index out of range"))
  ∧ (Eval noPrims 20 0 (.list [.symbol "if"]) (Store.mk [Frame.mk "global" [] none])
      = .error (.hostFault "index out of range")) :=
  ⟨rfl, rfl⟩

/-- C9: evaluating `(apply fexpr (quote elems))` is exactly evaluating the
call list `fexpr :: elems` as an ordinary list evaluation in the same
environment and store, for every function expression, element list,
environment and store — `apply` evaluates its second argument (the quote
responds with the literal list), requires a List, builds the new call list
from the unevaluated `fexpr` followed by the list's elements, and responds
with the result of evaluating that call; the two sides differ only in the
fuel consumed by the `apply` indirection itself. -/
theorem apply_quote_is_direct_call (P : Prims) (k e : Nat) (fexpr : Node)
    (elems : List Node) (st : Store) :
    (evalList P (k + 3) e
        [.symbol "apply", fexpr, .list [.symbol "quote", .list elems]] true).run st
      = (evalList P (k + 2) e (fexpr :: elems) true).run st := rfl

/-- C10: special forms cannot be shadowed through the environment.  For
every argument list, every environment, every store and every macro mode, a
non-empty list whose head is literally one of the twelve reserved symbols is
dispatched directly to that special form's handler — an expression built
only from the head name and the argument list, which never resolves the head
name in the environment (each handler receives only the environment index
and the arguments, never the head's binding); additionally, a `quote` form
responds with its argument under every store, in particular under stores
that bind the name `quote` to anything at all; and a list whose head symbol
is not reserved — and only such a list — proceeds to callable-head
application, the sole path that resolves the head in the environment. -/
theorem reserved_heads_dispatch_without_lookup (P : Prims) (fuel e : Nat) (st : Store)
    (sem : Bool) :
    (∀ args, evalList P (fuel + 1) e (.symbol "apply" :: args) sem
      = do
          let f ← goIndex args 0
          let arg1 ← goIndex args 1
          let ln ← evalNode P fuel e arg1
          let l ← toListValue ln
          evalList P fuel e (f :: l) true)
  ∧ (∀ args, evalList P (fuel + 1) e (.symbol "def" :: args) sem
      = evalSpecialDef P fuel e args)
  ∧ (∀ args, evalList P (fuel + 1) e (.symbol "eval" :: args) sem
      = evalSpecialEval P fuel e args)
  ∧ (∀ args, evalList P (fuel + 1) e (.symbol "update!" :: args) sem
      = do
          let a0 ← goIndex args 0
          let nm ← toSymbolName a0
          let a1 ← goIndex args 1
          let v ← evalNode P fuel e a1
          envUpdate e nm v
          pure .nilNode)
  ∧ (∀ args, evalList P (fuel + 1) e (.symbol "if" :: args) sem
      = do
          let a0 ← goIndex args 0
          let pv ← evalNode P fuel e a0
          if toBooleanValue pv then do
            let a1 ← goIndex args 1
            evalNode P fuel e a1
          else do
            let a2 ← goIndex args 2
            evalNode P fuel e a2)
  ∧ (∀ args, evalList P (fuel + 1) e (.symbol "cond" :: args) sem
      = evalCondClauses P fuel e (nodeString (.list (.symbol "cond" :: args))) args)
  ∧ (∀ args, evalList P (fuel + 1) e (.symbol "fn" :: args) sem
      = evalSpecialFnOrMacroForm e args false)
  ∧ (∀ args, evalList P (fuel + 1) e (.symbol "macro" :: args) sem
      = evalSpecialFnOrMacroForm e args true)
  ∧ (∀ args, evalList P (fuel + 1) e (.symbol "macroexpand1" :: args) sem
      = evalSpecialExpand1 P fuel e args)
  ∧ (∀ args, evalList P (fuel + 1) e (.symbol "quote" :: args) sem
      = goIndex args 0)
  ∧ (∀ args, evalList P (fuel + 1) e (.symbol "let" :: args) sem
      = evalSpecialLet P fuel e args)
  ∧ (∀ args, evalList P (fuel + 1) e (.symbol "begin" :: args) sem
      = evalSpecialBegin P fuel e args)
  ∧ (∀ x : Node, (evalList P (fuel + 1) e [.symbol "quote", x] sem).run st = .ok (x, st))
  ∧ (∀ name args, name ∉ reservedNames →
        evalList P (fuel + 1) e (.symbol name :: args) sem
          = evalListHeadApplication P fuel e (.symbol name) args sem) := by
  refine ⟨fun args => rfl, fun args => rfl, fun args => rfl, fun args => rfl,
    fun args => rfl, fun args => rfl, fun args => rfl, fun args => rfl,
    fun args => rfl, fun args => rfl, fun args => rfl, fun args => rfl,
    fun x => rfl, ?_⟩
  intro name args hname
  simp only [reservedNames, List.mem_cons, List.not_mem_nil, or_false, not_or] at hname
  obtain ⟨h1, h2, h3, h4, h5, h6, h7, h8, h9, h10, h11, h12⟩ := hname
  show evalD P (fuel + 1) (.list e (.symbol name :: args) sem)
    = evalD P fuel (.headApplication e (.symbol name) args sem)
  simp only [evalD]

/-- C10 witness: with `quote` bound to a function in the store, `(quote
(1))` still responds with the literal list `(1)`; with `if` bound to a
number in the store, `(if nil 1 2)` still dispatches to the `if` form and
evaluates to 2; `(def z 1)` dispatches to the `def` handler for its concrete
argument list; and the unreserved head `foo` goes to callable-head
application. -/
theorem reserved_heads_dispatch_without_lookup_witness :
    ((evalList noPrims 9 0 [.symbol "quote", .list [.number 1]] true).run
        (Store.mk [Frame.mk "global"
          [("quote", .function "f" [] (.symbol "x") 0 false)] none])
      = .ok (.list [.number 1],
          Store.mk [Frame.mk "global"
            [("quote", .function "f" [] (.symbol "x") 0 false)] none]))
  ∧ ((evalList noPrims 9 0 [.symbol "if", .nilNode, .number 1, .number 2] true).run
        (Store.mk [Frame.mk "global" [("if", .number 0)] none])
      = .ok (.number 2, Store.mk [Frame.mk "global" [("if", .number 0)] none]))
  ∧ (evalList noPrims 9 0 [.symbol "def", .symbol "z", .number 1] true
      = evalSpecialDef noPrims 8 0 [.symbol "z", .number 1])
  ∧ (evalList noPrims 9 0 [.symbol "foo"] true
      = evalListHeadApplication noPrims 8 0 (.symbol "foo") [] true) := by
  obtain ⟨happly, hdef, heval2, hupd, hif, hcond, hfn, hmac, hexp, hq, hlet, hbeg,
      hqdemo, hfall⟩ :=
    reserved_heads_dispatch_without_lookup noPrims 8 0
      (Store.mk [Frame.mk "global"
        [("quote", .function "f" [] (.symbol "x") 0 false)] none]) true
  refine ⟨hqdemo (.list [.number 1]), ?_, hdef [.symbol "z", .number 1],
    hfall "foo" [] (by decide)⟩
  exact (congrArg (fun m => StateT.run m
    (Store.mk [Frame.mk "global" [("if", .number 0)] none]))
    (hif [.nilNode, .number 1, .number 2])).trans (by rfl)

/-- C8: when the head of a list evaluates to a Primitive with declared
inclusive arity range, the argument count is validated against that range
before any argument is evaluated — a count outside the range is the
classified arity error carrying the declared range and the actual count, no
matter what the argument expressions are (they are never evaluated); a count
inside the range evaluates every argument left to right and responds with
the host function's result on the evaluated arguments. -/
theorem primitive_arity_range_gates_evaluation (P : Prims) (fuel e : Nat) (head : Node)
    (args : List Node) (sem : Bool) (st st1 : Store) (pname : String)
    (minArity maxArity fid : Nat)
    (hhead : (evalNode P fuel e head).run st
      = .ok (.primitive pname minArity maxArity fid, st1)) :
    (¬(minArity ≤ args.length ∧ args.length ≤ maxArity) →
        (evalListHeadApplication P (fuel + 1) e head args sem).run st
          = .error (.evalError (primitiveArityMsg pname minArity maxArity args.length)))
  ∧ (∀ vals st2, minArity ≤ args.length → args.length ≤ maxArity →
        (evalEachNode P fuel e args).run st1 = .ok (vals, st2) →
        (evalListHeadApplication P (fuel + 1) e head args sem).run st
          = .ok (P fid e head vals, st2)) := by
  replace hhead : (evalD P fuel (.node e head)).run st
      = .ok (.primitive pname minArity maxArity fid, st1) := hhead
  have hstep : (evalListHeadApplication P (fuel + 1) e head args sem).run st
      = ((ensurePrimitiveArgsCountInRange pname args minArity maxArity >>= fun _ =>
          evalEachNode P fuel e args >>= fun argv =>
          (pure (P fid e head argv) : EvalM Node))).run st1 := by
    show ((evalD P fuel (.node e head)) >>= fun headNode =>
      (match headNode with
      | Node.primitive pname2 minA2 maxA2 fid2 =>
          ensurePrimitiveArgsCountInRange pname2 args minA2 maxA2 >>= fun _ =>
          evalD P fuel (.eachNode e args) >>= fun argv =>
          (pure (P fid2 e head argv) : EvalM Node)
      | Node.function fname2 params2 body2 parentEnv2 macroFlag2 =>
          evalD P fuel (.fnApplication e fname2 params2 body2 parentEnv2 macroFlag2 args sem)
      | other =>
          throw (.evalError ("First item in list not a function: " ++ nodeString other)))).run st
      = _
    rw [run_bind_ok hhead]
    rfl
  rw [hstep]
  constructor
  · intro hrange
    simp only [ensurePrimitiveArgsCountInRange, if_neg hrange]
    rw [run_bind_err (run_throw _ _)]
  · intro vals st2 hmin hmax heach
    simp only [ensurePrimitiveArgsCountInRange, if_pos (And.intro hmin hmax)]
    rw [run_bind_ok (run_pure _ _), run_bind_ok heach, run_pure]

/-- C8 witness: a primitive declared with range 1 to 2 called with 3
arguments fails with the arity message carrying 1, 2 and 3 — whatever the
host table would have computed — and called with 1 argument responds with
the host function's result. -/
theorem primitive_arity_range_gates_evaluation_witness :
    ((evalListHeadApplication noPrims 6 0 (.symbol "p")
        [.number 1, .number 2, .number 3] true).run
        (Store.mk [Frame.mk "global" [("p", .primitive "p" 1 2 0)] none])
      = .error (.evalError "Primitive p expects between 1 and 2 arguments, but was given 3"))
  ∧ ((evalListHeadApplication noPrims 6 0 (.symbol "p") [.number 1] true).run
        (Store.mk [Frame.mk "global" [("p", .primitive "p" 1 2 0)] none])
      = .ok (.nilNode, Store.mk [Frame.mk "global" [("p", .primitive "p" 1 2 0)] none])) := by
  have h1 := primitive_arity_range_gates_evaluation noPrims 5 0 (.symbol "p")
    [.number 1, .number 2, .number 3] true
    (Store.mk [Frame.mk "global" [("p", .primitive "p" 1 2 0)] none])
    (Store.mk [Frame.mk "global" [("p", .primitive "p" 1 2 0)] none]) "p" 1 2 0 (by rfl)
  have h2 := primitive_arity_range_gates_evaluation noPrims 5 0 (.symbol "p")
    [.number 1] true
    (Store.mk [Frame.mk "global" [("p", .primitive "p" 1 2 0)] none])
    (Store.mk [Frame.mk "global" [("p", .primitive "p" 1 2 0)] none]) "p" 1 2 0 (by rfl)
  refine ⟨(h1.1 (by decide)).trans (by rfl), ?_⟩
  exact (h2.2 [.number 1]
    (Store.mk [Frame.mk "global" [("p", .primitive "p" 1 2 0)] none])
    (by decide) (by decide) (by rfl)).trans (by rfl)

/-- C2: applying a non-macro Function with plain symbol parameters first
allocates one fresh child frame whose parent is the function's captured
lexical parent environment — not the caller's dynamic environment — then
evaluates the arguments in the caller's dynamic environment, binds the
parameters in the fresh frame, and evaluates the body in the fresh frame;
hence the body resolves free names through the definition environment's
chain, unaffected by the caller's bindings. -/
theorem function_application_uses_captured_parent (P : Prims)
    (fuel dynamicEnv parentEnv : Nat) (fname : String) (names : List String)
    (body : Node) (unevaledArgs vals : List Node) (sem : Bool) (st st1 : Store)
    (hrest : "&rest" ∉ names)
    (hlen : unevaledArgs.length = names.length)
    (hvals : vals.length = names.length)
    (heval : (evalEachNode P fuel dynamicEnv unevaledArgs).run
        (Store.mk (st.frames ++ [Frame.mk fname [] (some parentEnv)])) = .ok (vals, st1))
    (hfr : st1.frames[st.frames.length]? = some (Frame.mk fname [] (some parentEnv))) :
    (evalFunctionApplication P (fuel + 1) dynamicEnv fname (names.map Node.symbol) body
        parentEnv false unevaledArgs sem).run st
      = (evalNode P fuel st.frames.length body).run
          (Store.mk (st1.frames.set st.frames.length
            (Frame.mk fname (bindAccum [] names vals) (some parentEnv)))) := by
  replace heval : (evalD P fuel (.eachNode dynamicEnv unevaledArgs)).run
      (Store.mk (st.frames ++ [Frame.mk fname [] (some parentEnv)])) = .ok (vals, st1) := heval
  have hensure : ensureArgsMatchParameters fname unevaledArgs.length
      (names.map Node.symbol).length = (pure () : EvalM Unit) := by
    simp [ensureArgsMatchParameters, hlen]
  have hbind := bindParamsLoop_symbols st.frames.length vals names 0 0 st1
    (Frame.mk fname [] (some parentEnv)) hfr hrest (by omega)
  simp only [evalFunctionApplication, evalD]
  rw [detectRestMarker_no_rest names hrest, pure_bind, if_neg Bool.false_ne_true,
    hensure, pure_bind, run_bind_ok (run_newMapEnv fname parentEnv st)]
  simp only [if_neg Bool.false_ne_true]
  rw [run_bind_ok heval, run_bind_ok hbind]
  rw [List.drop_zero] at hbind ⊢
  rfl

/-- C2 witness: a function with empty parameter list and body `x`, captured
over the global frame where `x` is 1, applied from a caller frame that
shadows `x` with 2, evaluates its body in a fresh frame parented to the
global frame and returns 1, the value from the definition environment. -/
theorem function_application_uses_captured_parent_witness :
    (evalFunctionApplication noPrims 5 1 "f" [] (.symbol "x") 0 false [] true).run
        (Store.mk [Frame.mk "global" [("x", .number 1)] none,
                   Frame.mk "call" [("x", .number 2)] (some 0)])
      = .ok (.number 1,
          Store.mk [Frame.mk "global" [("x", .number 1)] none,
                    Frame.mk "call" [("x", .number 2)] (some 0),
                    Frame.mk "f" [] (some 0)]) := by
  have h := function_application_uses_captured_parent noPrims 4 1 0 "f" [] (.symbol "x")
    [] [] true
    (Store.mk [Frame.mk "global" [("x", .number 1)] none,
               Frame.mk "call" [("x", .number 2)] (some 0)])
    (Store.mk [Frame.mk "global" [("x", .number 1)] none,
               Frame.mk "call" [("x", .number 2)] (some 0),
               Frame.mk "f" [] (some 0)])
    (by decide) rfl rfl (by rfl) (by rfl)
  exact h.trans (by rfl)

/-- C3: applying a macro Function binds the arguments unevaluated in the
fresh environment parented to the macro's captured parent; the body is
evaluated to completion in that environment to produce the expansion; in the
normal expand-and-evaluate case the expansion is then evaluated in the
original caller's dynamic environment, and when only expansion is requested
the expansion is returned unevaluated. -/
theorem macro_application_expands_then_evaluates (P : Prims)
    (fuel dynamicEnv parentEnv : Nat) (fname : String) (names : List String)
    (body expansion : Node) (unevaledArgs : List Node) (sem : Bool) (st st2 : Store)
    (hrest : "&rest" ∉ names)
    (hlen : unevaledArgs.length = names.length)
    (hexpand : (evalNode P fuel st.frames.length body).run
        (Store.mk (st.frames ++
          [Frame.mk fname (bindAccum [] names unevaledArgs) (some parentEnv)]))
      = .ok (expansion, st2)) :
    (evalFunctionApplication P (fuel + 1) dynamicEnv fname (names.map Node.symbol) body
        parentEnv true unevaledArgs sem).run st
      = (if sem then (evalNode P fuel dynamicEnv expansion).run st2
         else .ok (expansion, st2)) := by
  replace hexpand : (evalD P fuel (.node st.frames.length body)).run
      (Store.mk (st.frames ++
        [Frame.mk fname (bindAccum [] names unevaledArgs) (some parentEnv)]))
      = .ok (expansion, st2) := hexpand
  have hensure : ensureArgsMatchParameters fname unevaledArgs.length
      (names.map Node.symbol).length = (pure () : EvalM Unit) := by
    simp [ensureArgsMatchParameters, hlen]
  have hfrMid : (Store.mk (st.frames ++
      [Frame.mk fname [] (some parentEnv)])).frames[st.frames.length]?
      = some (Frame.mk fname [] (some parentEnv)) := by
    simp [List.getElem?_concat_length]
  have hbind0 := bindParamsLoop_symbols st.frames.length unevaledArgs names 0 0
    (Store.mk (st.frames ++ [Frame.mk fname [] (some parentEnv)]))
    (Frame.mk fname [] (some parentEnv)) hfrMid hrest (by omega)
  rw [List.drop_zero, set_append_length] at hbind0
  have hbind : (bindParamsLoop st.frames.length unevaledArgs 0 0 false
      (names.map Node.symbol)).run
        (Store.mk (st.frames ++ [Frame.mk fname [] (some parentEnv)]))
      = .ok ((), Store.mk (st.frames ++
          [Frame.mk fname (bindAccum [] names unevaledArgs) (some parentEnv)])) := hbind0
  simp only [evalFunctionApplication, evalD]
  rw [detectRestMarker_no_rest names hrest, pure_bind, if_neg Bool.false_ne_true,
    hensure, pure_bind, run_bind_ok (run_newMapEnv fname parentEnv st)]
  simp only [if_true]
  rw [pure_bind, run_bind_ok hbind, run_bind_ok hexpand]
  cases sem with
  | true => rfl
  | false => rfl

/-- C3 witness: the macro `(macro (a) a)` applied to the raw symbol `y`
binds `a` to the unevaluated symbol `y`; the expansion is that symbol, which
in the expand-and-evaluate case is then evaluated in the caller's
environment (yielding 42) and in the expansion-only case is returned
unevaluated. -/
theorem macro_application_expands_then_evaluates_witness :
    ((evalFunctionApplication noPrims 5 0 "m" [.symbol "a"] (.symbol "a") 0 true
        [.symbol "y"] true).run (Store.mk [Frame.mk "global" [("y", .number 42)] none])
      = .ok (.number 42,
          Store.mk [Frame.mk "global" [("y", .number 42)] none,
                    Frame.mk "m" [("a", .symbol "y")] (some 0)]))
  ∧ ((evalFunctionApplication noPrims 5 0 "m" [.symbol "a"] (.symbol "a") 0 true
        [.symbol "y"] false).run (Store.mk [Frame.mk "global" [("y", .number 42)] none])
      = .ok (.symbol "y",
          Store.mk [Frame.mk "global" [("y", .number 42)] none,
                    Frame.mk "m" [("a", .symbol "y")] (some 0)])) := by
  have h1 := macro_application_expands_then_evaluates noPrims 4 0 0 "m" ["a"]
    (.symbol "a") (.symbol "y") [.symbol "y"] true
    (Store.mk [Frame.mk "global" [("y", .number 42)] none])
    (Store.mk [Frame.mk "global" [("y", .number 42)] none,
               Frame.mk "m" [("a", .symbol "y")] (some 0)])
    (by decide) rfl (by rfl)
  have h2 := macro_application_expands_then_evaluates noPrims 4 0 0 "m" ["a"]
    (.symbol "a") (.symbol "y") [.symbol "y"] false
    (Store.mk [Frame.mk "global" [("y", .number 42)] none])
    (Store.mk [Frame.mk "global" [("y", .number 42)] none,
               Frame.mk "m" [("a", .symbol "y")] (some 0)])
    (by decide) rfl (by rfl)
  exact ⟨h1.trans (by rfl), h2.trans (by rfl)⟩

/-- C4: applying a non-macro function with parameter list `(a &rest b)` to
at least one argument binds `a` to the first evaluated argument and `b` to
one newly built List node holding the remaining evaluated arguments (the
empty list when exactly one argument was given), in the fresh frame parented
to the function's captured parent; the original argument list is only read,
never rebuilt or altered — the rest binding is a fresh List node over the
argument tail. -/
theorem variadic_binding_splits_first_and_rest (P : Prims)
    (fuel dynamicEnv parentEnv : Nat) (fname : String) (a b : String) (body : Node)
    (unevaledArgs : List Node) (v : Node) (vs : List Node) (sem : Bool) (st st1 : Store)
    (ha : a ≠ "&rest") (hb : b ≠ "&rest") (hab : a ≠ b)
    (heval : (evalEachNode P fuel dynamicEnv unevaledArgs).run
        (Store.mk (st.frames ++ [Frame.mk fname [] (some parentEnv)])) = .ok (v :: vs, st1))
    (hfr : st1.frames[st.frames.length]? = some (Frame.mk fname [] (some parentEnv))) :
    (evalFunctionApplication P (fuel + 1) dynamicEnv fname
        [.symbol a, .symbol "&rest", .symbol b] body parentEnv false unevaledArgs sem).run st
      = (evalNode P fuel st.frames.length body).run
          (Store.mk (st1.frames.set st.frames.length
            (Frame.mk fname [(a, v), (b, .list vs)] (some parentEnv)))) := by
  replace heval : (evalD P fuel (.eachNode dynamicEnv unevaledArgs)).run
      (Store.mk (st.frames ++ [Frame.mk fname [] (some parentEnv)])) = .ok (v :: vs, st1) := heval
  have hlex : st.frames.length < st1.frames.length := by
    rcases List.getElem?_eq_some.mp hfr with ⟨hl, _⟩; exact hl
  have hdetect : detectRestMarker [.symbol a, .symbol "&rest", .symbol b]
      = (pure true : EvalM Bool) := by
    simp [detectRestMarker, toSymbolName_symbol, pure_bind, ha]
  have hfrA : (Store.mk (st1.frames.set st.frames.length
      (Frame.mk fname [(a, v)] (some parentEnv)))).frames[st.frames.length]?
      = some (Frame.mk fname [(a, v)] (some parentEnv)) := by
    simp [List.getElem?_set_self (by simpa using hlex)]
  have h1 : bindParamsLoop st.frames.length (v :: vs) 0 0 false
      [.symbol a, .symbol "&rest", .symbol b]
      = (envSet st.frames.length a v >>= fun _ =>
         envSet st.frames.length b (.list vs) >>= fun _ => (pure () : EvalM Unit)) := by
    simp [bindParamsLoop, toSymbolName_symbol, pure_bind, goIndex, ha, hb]
  have hbind3 : (bindParamsLoop st.frames.length (v :: vs) 0 0 false
      [.symbol a, .symbol "&rest", .symbol b]).run st1
      = .ok ((), Store.mk (st1.frames.set st.frames.length
          (Frame.mk fname [(a, v), (b, .list vs)] (some parentEnv)))) := by
    rw [h1, run_bind_ok (run_envSet a v hfr)]
    simp only [assocSet]
    rw [run_bind_ok (run_envSet b (.list vs) hfrA), run_pure]
    simp [assocSet, hab, List.set_set]
  simp only [evalFunctionApplication, evalD]
  rw [hdetect, pure_bind, if_pos rfl, pure_bind,
    run_bind_ok (run_newMapEnv fname parentEnv st)]
  simp only [if_neg Bool.false_ne_true]
  rw [run_bind_ok heval, run_bind_ok hbind3]
  rfl

/-- C4 witness: `(fn (a &rest b) b)` applied to the three numbers 1 2 3
binds `a` to 1 and `b` to the new list `(2 3)`; applied to the single number
7 it binds `b` to the empty list. -/
theorem variadic_binding_splits_first_and_rest_witness :
    ((evalFunctionApplication noPrims 5 0 "g"
        [.symbol "a", .symbol "&rest", .symbol "b"] (.symbol "b") 0 false
        [.number 1, .number 2, .number 3] true).run (Store.mk [Frame.mk "global" [] none])
      = .ok (.list [.number 2, .number 3],
          Store.mk [Frame.mk "global" [] none,
            Frame.mk "g" [("a", .number 1), ("b", .list [.number 2, .number 3])] (some 0)]))
  ∧ ((evalFunctionApplication noPrims 5 0 "g"
        [.symbol "a", .symbol "&rest", .symbol "b"] (.symbol "b") 0 false
        [.number 7] true).run (Store.mk [Frame.mk "global" [] none])
      = .ok (.list [],
          Store.mk [Frame.mk "global" [] none,
            Frame.mk "g" [("a", .number 7), ("b", .list [])] (some 0)])) := by
  have h1 := variadic_binding_splits_first_and_rest noPrims 4 0 0 "g" "a" "b"
    (.symbol "b") [.number 1, .number 2, .number 3] (.number 1) [.number 2, .number 3]
    true (Store.mk [Frame.mk "global" [] none])
    (Store.mk [Frame.mk "global" [] none, Frame.mk "g" [] (some 0)])
    (by decide) (by decide) (by decide) (by rfl) (by rfl)
  have h2 := variadic_binding_splits_first_and_rest noPrims 4 0 0 "g" "a" "b"
    (.symbol "b") [.number 7] (.number 7) []
    true (Store.mk [Frame.mk "global" [] none])
    (Store.mk [Frame.mk "global" [] none, Frame.mk "g" [] (some 0)])
    (by decide) (by decide) (by decide) (by rfl) (by rfl)
  exact ⟨h1.trans (by rfl), h2.trans (by rfl)⟩

end Vamos
